import Mathlib

set_option maxHeartbeats 1000000

/-! Shallow embedding of the semantic memory engine in `app/memory_sytems.py`
(class `EmbeddingMemorySystem`).  Python floats are modelled as rationals
(`ℚ`), except cosine-similarity values, which live in `ℝ` because of the
square roots.  Mongo collections are modelled as insertion-ordered lists of
documents; `find_one`/`update_one` act on the first matching document and
`insert_one` appends at the end. -/

/-- Python `str.lower` (the source lower-cases ASCII text). -/
def lowerStr (s : String) : String := String.mk (s.data.map Char.toLower)

/-- Python `str.strip`: drop leading and trailing whitespace. -/
def trimStr (s : String) : String :=
  String.mk (((s.data.dropWhile Char.isWhitespace).reverse.dropWhile Char.isWhitespace).reverse)

/-- Python substring containment `needle in haystack`. -/
def containsSub : List Char → List Char → Bool
  | [], nee => nee.isEmpty
  | c :: t, nee => nee.isPrefixOf (c :: t) || containsSub t nee

/-- The `theme_keywords` table of `_extract_themes` (lines 203-212), in source
order. -/
def theme_keywords : List (String × List String) :=
  [("work", ["work", "job", "office", "boss", "colleague", "project", "deadline", "career"]),
   ("family", ["family", "mother", "father", "parent", "sibling", "wife", "husband", "child", "mom", "dad"]),
   ("relationships", ["relationship", "friend", "friendship", "partner", "love", "dating", "breakup"]),
   ("health", ["health", "exercise", "sleep", "energy", "tired", "sick", "doctor"]),
   ("stress", ["stress", "anxiety", "worry", "nervous", "pressure", "overwhelm", "tense"]),
   ("hobby", ["hobby", "interest", "enjoy", "fun", "leisure", "game", "music", "movie"]),
   ("future", ["future", "goal", "plan", "dream", "hope", "want", "wish", "aspire"]),
   ("education", ["study", "school", "college", "exam", "course", "learning", "class"])]

/-- The theme classifier `_extract_themes` (lines 201-216): a theme fires when
any of its keywords is a substring of the lower-cased text; when nothing
fires the result is `["general"]`. -/
def extract_themes (text : String) : List String :=
  let text_lower := (lowerStr text).toList
  let detected_themes :=
    (theme_keywords.filter
      (fun p => p.2.any (fun keyword => containsSub text_lower keyword.toList))).map Prod.fst
  if detected_themes.isEmpty then ["general"] else detected_themes

/-- The labels the code can actually emit: the keys of `theme_keywords` plus
the catch-all `general`. -/
def codeThemeLabels : List String := (theme_keywords.map Prod.fst) ++ ["general"]

/-- The closed enumeration the spec claims for theme labels (spec section 4.2). -/
def specThemeEnumeration : List String :=
  ["work", "family", "relationship", "mental_health", "sleep", "health",
   "education", "finance", "social", "hobby", "general"]

/-- A fact candidate produced by `_extract_facts` (lines 144-149). -/
structure FactCand where
  type : String
  value : String
  confidence : ℚ
  source : String
deriving DecidableEq, Inhabited

/-- A stored fact document, as inserted by `_store_fact` (lines 171-180). -/
structure FactDoc where
  user_id : String
  type : String
  value : String
  confidence : ℚ
  source : String
  first_mentioned : Nat
  last_mentioned : Nat
  mention_count : Nat
deriving DecidableEq, Inhabited

/-- The `find_one` filter of `_store_fact` (lines 156-160): same user, same
type, and case-insensitively equal value (regex `^..$` with option `i`). -/
def factQuery (user_id : String) (fact : FactCand) (f : FactDoc) : Bool :=
  decide (f.user_id = user_id ∧ f.type = fact.type ∧ lowerStr f.value = lowerStr fact.value)

/-- The new document inserted by `_store_fact` when no match exists
(lines 171-181). -/
def mkFactDoc (user_id : String) (fact : FactCand) (now : Nat) : FactDoc :=
  { user_id := user_id, type := fact.type, value := fact.value,
    confidence := fact.confidence, source := fact.source,
    first_mentioned := now, last_mentioned := now, mention_count := 1 }

/-- The update applied by `_store_fact` to an existing matching document
(lines 162-169): refresh `last_mentioned`, cap the bumped confidence at 1,
increment `mention_count`. -/
def bumpFact (f : FactDoc) (now : Nat) : FactDoc :=
  { f with last_mentioned := now,
           confidence := min (f.confidence + 1/10) 1,
           mention_count := f.mention_count + 1 }

/-- The fact-store upsert `_store_fact` (lines 153-181): update the first
matching document, or append a new one. -/
def store_fact (coll : List FactDoc) (user_id : String) (fact : FactCand) (now : Nat) : List FactDoc :=
  match coll with
  | [] => [mkFactDoc user_id fact now]
  | f :: rest =>
      if factQuery user_id fact f then bumpFact f now :: rest
      else f :: store_fact rest user_id fact now

/-- One theme aggregate document of the `user_memories` collection. -/
structure ThemeAggregate where
  user_id : String
  theme : String
  frequency : Nat
  emotions : List String
  snippets : List String
  last_discussed : Nat
deriving DecidableEq, Inhabited

/-- Mongo `$slice: -n` on a pushed array: keep only the last `n` elements. -/
def lastN (n : Nat) (l : List α) : List α := (l.reverse.take n).reverse

/-- One upsert of `_update_memory_themes` (lines 187-199) for a single theme:
`$inc` frequency, `$set` last_discussed, `$push` the emotion (no `$slice`),
and `$push` the excerpt with `$slice: -5`; with `upsert=True` a missing
`(user_id, theme)` document is created. -/
def touchTheme (coll : List ThemeAggregate) (user_id theme emotion excerpt : String)
    (now : Nat) : List ThemeAggregate :=
  match coll with
  | [] => [{ user_id := user_id, theme := theme, frequency := 1,
             emotions := [emotion], snippets := [excerpt], last_discussed := now }]
  | t :: rest =>
      if decide (t.user_id = user_id ∧ t.theme = theme) then
        { t with frequency := t.frequency + 1,
                 last_discussed := now,
                 emotions := t.emotions ++ [emotion],
                 snippets := lastN 5 (t.snippets ++ [excerpt]) } :: rest
      else t :: touchTheme rest user_id theme emotion excerpt now

/-- The theme-store write `_update_memory_themes` (lines 183-199): touch every
theme extracted from the message, pushing the emotion and the first 100
characters of the message. -/
def update_memory_themes (coll : List ThemeAggregate) (user_id message emotion : String)
    (now : Nat) : List ThemeAggregate :=
  (extract_themes message).foldl
    (fun c theme => touchTheme c user_id theme emotion (message.take 100) now) coll

/-- The projection of a stored fact returned by `_get_user_facts`
(lines 282-287). -/
structure FactView where
  type : String
  value : String
  confidence : ℚ
  mention_count : Nat
deriving DecidableEq, Inhabited

/-- Projection used inside `_get_user_facts`. -/
def factView (f : FactDoc) : FactView :=
  { type := f.type, value := f.value, confidence := f.confidence,
    mention_count := f.mention_count }

/-- The fact read path of `_get_user_facts` (line 276): the user's facts,
sorted by confidence descending (stable), truncated by `to_list(length=100)`
to at most 100 documents. -/
def userFactsSorted (coll : List FactDoc) (user_id : String) : List FactDoc :=
  ((coll.filter (fun f => decide (f.user_id = user_id))).mergeSort
    (fun a b => decide (b.confidence ≤ a.confidence))).take 100

/-- One step of the grouping loop of `_get_user_facts` (lines 277-287):
append the projected fact to its type's entry of the insertion-ordered dict,
creating the entry if absent. -/
def addToGroup : List (String × List FactView) → FactDoc → List (String × List FactView)
  | [], f => [(f.type, [factView f])]
  | p :: rest, f =>
      if decide (p.1 = f.type) then (p.1, p.2 ++ [factView f]) :: rest
      else p :: addToGroup rest f

/-- The read contract `_get_user_facts` (lines 274-288): group the (at most
100) highest-confidence facts by type, insertion-ordered. -/
def get_user_facts (coll : List FactDoc) (user_id : String) : List (String × List FactView) :=
  (userFactsSorted coll user_id).foldl addToGroup []

/-- Insertion-ordered distinct elements, as the keys of a `Counter`. -/
def firstOccurrences (l : List String) : List String :=
  l.foldl (fun acc x => if x ∈ acc then acc else acc ++ [x]) []

/-- Python `Counter(l).most_common(n)`: elements with their counts, most
common first, ties in first-encountered order (stable sort). -/
def mostCommon (l : List String) (n : Nat) : List (String × Nat) :=
  (((firstOccurrences l).map (fun x => (x, l.count x))).mergeSort
    (fun a b => decide (b.2 ≤ a.2))).take n

/-- The projection returned by `_get_memory_themes` (lines 293-298). -/
structure ThemeView where
  theme : String
  frequency : Nat
  last_discussed : Nat
  dominant_emotions : List (String × Nat)
deriving DecidableEq, Inhabited

/-- The theme read path `_get_memory_themes` (lines 290-298): the user's five
most frequent themes, annotated with the three most common recent emotions. -/
def get_memory_themes (coll : List ThemeAggregate) (user_id : String) : List ThemeView :=
  ((((coll.filter (fun t => decide (t.user_id = user_id))).mergeSort
      (fun a b => decide (b.frequency ≤ a.frequency))).take 5).map
    (fun t => { theme := t.theme, frequency := t.frequency,
                last_discussed := t.last_discussed,
                dominant_emotions := mostCommon t.emotions 3 }))

/-- The embedding client `_generate_embedding` (lines 86-96): the generator
either succeeds with a vector (`some`) or fails (`none`); a failure is
converted into the empty vector instead of raising. -/
def generate_embedding (result : Option (List ℚ)) : List ℚ :=
  match result with
  | some embedding => embedding
  | none => []

/-- Dot product of two float vectors (`np.dot` on equal-length 1-D arrays). -/
def dotProduct (v w : List ℚ) : ℚ := (List.zipWith (· * ·) v w).sum

/-- Sum of squares of a vector. -/
def sqNorm (v : List ℚ) : ℚ := dotProduct v v

/-- Euclidean norm `np.linalg.norm`. -/
noncomputable def norm2 (v : List ℚ) : ℝ := Real.sqrt ((sqNorm v : ℚ) : ℝ)

open Classical in
/-- The cosine similarity `_cosine_similarity` (lines 263-272): `np.dot`
raises on a length mismatch and the bare `except` turns that into 0.0;
otherwise a zero norm on either side yields 0.0, else `dot / (‖a‖·‖b‖)`. -/
noncomputable def cosine_similarity (vec1 vec2 : List ℚ) : ℝ :=
  if vec1.length ≠ vec2.length then 0
  else if norm2 vec1 = 0 ∨ norm2 vec2 = 0 then 0
  else ((dotProduct vec1 vec2 : ℚ) : ℝ) / (norm2 vec1 * norm2 vec2)

/-- One archived conversation document (lines 111-120). -/
structure ConversationDoc where
  user_id : String
  user_message : String
  assistant_response : String
  emotion : String
  embedding : List ℚ
  timestamp : Nat
  context_strength : ℝ
  facts_extracted : Nat

/-- One entry of the `relevant_conversations` list built by recall
(lines 244-250). -/
structure RelevantConv where
  message : String
  response : String
  emotion : String
  timestamp : Nat
  similarity : ℝ

/-- The recall result dict (lines 256-261). -/
structure ContextBundle where
  relevant_conversations : List RelevantConv
  facts : List (String × List FactView)
  themes : List ThemeView
  context_strength : ℝ

/-- The empty bundle returned on the two early exits of recall
(lines 227 and 234). -/
def emptyBundle : ContextBundle :=
  { relevant_conversations := [], facts := [], themes := [], context_strength := 0 }

/-- The candidate pool of recall (lines 229-231): the user's archived turns
with a non-empty embedding, most recent first, limited to 100. -/
def candidatePool (conversations : List ConversationDoc) (user_id : String) :
    List ConversationDoc :=
  ((conversations.filter
      (fun c => decide (c.user_id = user_id ∧ c.embedding ≠ []))).mergeSort
    (fun a b => decide (b.timestamp ≤ a.timestamp))).take 100

/-- The similarity pass of recall (lines 236-241): candidates whose embedding
dimension differs from the query are skipped entirely; the others are paired
with their cosine similarity. -/
noncomputable def similarityEntries (query_embedding : List ℚ)
    (convs : List ConversationDoc) : List (ConversationDoc × ℝ) :=
  (convs.filter (fun c => decide (c.embedding.length = query_embedding.length))).map
    (fun c => (c, cosine_similarity query_embedding c.embedding))

open Classical in
/-- The context-recall engine `recall_relevant_context` (lines 218-261). -/
noncomputable def recall_relevant_context (gen : String → Option (List ℚ))
    (conversations : List ConversationDoc) (factsColl : List FactDoc)
    (memoryColl : List ThemeAggregate) (user_id current_query : String)
    (k : Nat) : ContextBundle :=
  let query_embedding := generate_embedding (gen current_query)
  if query_embedding.isEmpty then emptyBundle
  else
    let convs := candidatePool conversations user_id
    if convs.isEmpty then emptyBundle
    else
      let similarities := similarityEntries query_embedding convs
      let sorted := similarities.mergeSort (fun a b => decide (b.2 ≤ a.2))
      let top := sorted.take k
      { relevant_conversations :=
          top.map (fun s => { message := s.1.user_message,
                              response := s.1.assistant_response,
                              emotion := s.1.emotion,
                              timestamp := s.1.timestamp,
                              similarity := s.2 }),
        facts := get_user_facts factsColl user_id,
        themes := get_memory_themes memoryColl user_id,
        context_strength :=
          if similarities.isEmpty then 0
          else (top.map (fun s => s.2)).sum / (top.length : ℝ) }

/-- The three collections of the document store. -/
structure SysState where
  conversations : List ConversationDoc
  facts : List FactDoc
  memories : List ThemeAggregate

/-- The conversation document built by `store_conversation_with_memory`
(lines 111-120): the archived turn carries the embedding, the recalled
bundle's `context_strength` and the number of extracted facts. -/
noncomputable def conversation_doc (gen : Option (List ℚ))
    (user_id user_message assistant_response emotion : String)
    (recalled_context : ContextBundle) (now : Nat)
    (facts_extracted : Nat) : ConversationDoc :=
  { user_id := user_id, user_message := user_message,
    assistant_response := assistant_response, emotion := emotion,
    embedding := generate_embedding gen, timestamp := now,
    context_strength := recalled_context.context_strength,
    facts_extracted := facts_extracted }

/-- The primitive writes `store_conversation_with_memory` performs, in order
(lines 122-127): one archive insert, then one fact upsert per extracted
candidate, then the theme update. -/
inductive TurnAction where
  | archiveInsert (doc : ConversationDoc)
  | factUpsert (user_id : String) (fact : FactCand)
  | themeUpdate (user_id message emotion : String)

/-- Effect of one primitive write on the document store. -/
def applyAction (now : Nat) (st : SysState) : TurnAction → SysState
  | .archiveInsert doc => { st with conversations := st.conversations ++ [doc] }
  | .factUpsert user_id fact => { st with facts := store_fact st.facts user_id fact now }
  | .themeUpdate user_id message emotion =>
      { st with memories := update_memory_themes st.memories user_id message emotion now }

/-- Character classes occurring in the `fact_patterns` regexes: `\w`,
`[\w\s]` and `\d` (the source texts are ASCII). -/
inductive CClass where
  | word
  | wordspace
  | digit
deriving DecidableEq

/-- Membership test of a character class. -/
def CClass.check : CClass → Char → Bool
  | .word, c => c.isAlphanum || c == '_'
  | .wordspace, c => c.isAlphanum || c == '_' || c.isWhitespace
  | .digit, c => c.isDigit

/-- Abstract syntax of the regexes used in `fact_patterns` (lines 36-84).
Every capture group in the source is either a lazy `([\w\s]+?)`, a greedy
`(\w+)` / `(\d+)`, or an alternation of literal words, so captures are baked
into those three forms. -/
inductive RE where
  | lit (s : List Char)
  | seq (r₁ r₂ : RE)
  | alt (r₁ r₂ : RE)
  | eps
  | eos
  | grpPlusLazy (c : CClass)
  | grpPlusGreedy (c : CClass)
  | grpAlt (ws : List (List Char))

/-- Length of the maximal prefix of matching characters: the candidate
expansion range of `+` on a character class. -/
def runLen (c : CClass) : List Char → Nat
  | [] => 0
  | ch :: t => if c.check ch then runLen c t + 1 else 0

/-- Backtracking matcher: all ways a regex can match a prefix of the input,
as `(remaining input, captured groups)` pairs, in Python's backtracking
priority order (alternation left first, lazy `+?` shortest first, greedy `+`
longest first). -/
def matchAll : RE → List Char → List (List Char × List (List Char))
  | .lit s, input =>
      if s.isPrefixOf input then [(input.drop s.length, [])] else []
  | .seq r₁ r₂, input =>
      ((matchAll r₁ input).map (fun m₁ =>
        (matchAll r₂ m₁.1).map (fun m₂ => (m₂.1, m₁.2 ++ m₂.2)))).flatten
  | .alt r₁ r₂, input => matchAll r₁ input ++ matchAll r₂ input
  | .eps, input => [(input, [])]
  | .eos, input => if input.isEmpty then [(input, [])] else []
  | .grpPlusLazy c, input =>
      (List.range' 1 (runLen c input)).map
        (fun n => (input.drop n, [input.take n]))
  | .grpPlusGreedy c, input =>
      ((List.range' 1 (runLen c input)).reverse).map
        (fun n => (input.drop n, [input.take n]))
  | .grpAlt ws, input =>
      ws.filterMap
        (fun w => if w.isPrefixOf input then some (input.drop w.length, [w]) else none)

/-- Scanning loop of `re.findall`: at each position take the first
(highest-priority) match if any, record its captures, and resume after the
matched text (advancing one position on an empty match). -/
def findAllAux (re : RE) : Nat → List Char → List (List (List Char))
  | 0, _ => []
  | Nat.succ fuel, input =>
      match matchAll re input with
      | m :: _ =>
          if m.1.length < input.length then m.2 :: findAllAux re fuel m.1
          else
            match input with
            | [] => [m.2]
            | _ :: t => m.2 :: findAllAux re fuel t
      | [] =>
          match input with
          | [] => []
          | _ :: t => findAllAux re fuel t

/-- Python `re.findall(pattern, s)`: the capture tuples of all
non-overlapping matches, scanning left to right. -/
def findall (re : RE) (s : List Char) : List (List (List Char)) :=
  findAllAux re (s.length + 1) s

/-- Literal regex from a string. -/
def reStr (s : String) : RE := .lit s.toList

/-- The non-capturing terminator `(?:\.|,|$)` ending most value captures. -/
def reEnd : RE := .alt (reStr ".") (.alt (reStr ",") .eos)

/-- Non-capturing alternation of literal words, left branch first. -/
def reAlts : List String → RE
  | [] => .eps
  | [w] => reStr w
  | w :: rest => .alt (reStr w) (reAlts rest)

/-- Sequencing of a list of regex parts. -/
def reSeq : List RE → RE
  | [] => .eps
  | [r] => r
  | r :: rest => .seq r (reSeq rest)

/-- The apostrophe character (code 39), occurring in several patterns. -/
def apos : Char := Char.ofNat 39

/-- Literal containing an apostrophe between the two fragments. -/
def aposLit (a b : String) : RE := .lit (a.toList ++ apos :: b.toList)

/-- The `fact_patterns` table (lines 36-84), in source (dict insertion)
order; each regex is transcribed pattern by pattern. -/
def fact_patterns : List (String × List RE) :=
  [("name",
    [reSeq [reStr "my name is ", .grpPlusGreedy .word],
     reSeq [aposLit "i" "m ", .grpPlusGreedy .word],
     reSeq [reStr "i am ", .grpPlusGreedy .word],
     reSeq [reStr "call me ", .grpPlusGreedy .word]]),
   ("job",
    [reSeq [reStr "i work as ", reAlts ["a", "an"], reStr " ", .grpPlusLazy .wordspace, reEnd],
     reSeq [aposLit "i" "m ", reAlts ["a", "an"], reStr " ", .grpPlusLazy .wordspace, reEnd],
     reSeq [reStr "i am ", reAlts ["a", "an"], reStr " ", .grpPlusLazy .wordspace, reEnd],
     reSeq [reStr "my job is ", .grpPlusLazy .wordspace, reEnd],
     reSeq [reStr "i do ", .grpPlusLazy .wordspace, reStr " for work"]]),
   ("hobby",
    [reSeq [reStr "i ", reAlts ["love", "like", "enjoy"], reStr " ", .grpPlusLazy .wordspace, reEnd],
     reSeq [reStr "my hobby is ", .grpPlusLazy .wordspace, reEnd],
     reSeq [aposLit "i" "m into ", .grpPlusLazy .wordspace, reEnd],
     reSeq [reStr "i play ", .grpPlusLazy .wordspace, reEnd]]),
   ("location",
    [reSeq [reStr "i live in ", .grpPlusLazy .wordspace, reEnd],
     reSeq [aposLit "i" "m from ", .grpPlusLazy .wordspace, reEnd],
     reSeq [reStr "i am from ", .grpPlusLazy .wordspace, reEnd],
     reSeq [aposLit "i" "m in ", .grpPlusLazy .wordspace, reEnd]]),
   ("family",
    [reSeq [reStr "my ", reAlts ["wife", "husband", "partner", "spouse"], reStr " ",
            reAlts ["is ", ""], .grpPlusGreedy .word],
     reSeq [reStr "i have ", .grpPlusGreedy .digit, reStr " ", reAlts ["kids", "children"]],
     reSeq [reStr "my ", reAlts ["son", "daughter"], reStr " ",
            reAlts ["is ", ""], .grpPlusGreedy .word],
     reSeq [reStr "my ", reAlts ["mom", "dad", "mother", "father"], reStr " ",
            reAlts ["is ", ""], .grpPlusGreedy .word]]),
   ("preference",
    [reSeq [reStr "i ", reAlts ["prefer", "like"], reStr " ", .grpPlusLazy .wordspace, reStr " over"],
     reSeq [aposLit "i" "d rather ", .grpPlusLazy .wordspace, reEnd],
     reSeq [reStr "my favorite ", .grpPlusLazy .wordspace, reStr " is ",
            .grpPlusLazy .wordspace, reEnd]]),
   ("feeling",
    [reSeq [reStr "i feel ", .grpPlusLazy .wordspace, reEnd],
     reSeq [aposLit "i" "m feeling ", .grpPlusLazy .wordspace, reEnd],
     reSeq [reStr "feeling ",
            .grpAlt (["anxious", "stressed", "happy", "sad", "tired", "excited", "worried"].map
              String.toList)],
     reSeq [aposLit "i" "ve been ", .grpPlusLazy .wordspace, reStr " lately"]]),
   ("goal",
    [reSeq [reStr "i want to ", .grpPlusLazy .wordspace, reEnd],
     reSeq [reStr "my goal is ", .grpPlusLazy .wordspace, reEnd],
     reSeq [aposLit "i" "m trying to ", .grpPlusLazy .wordspace, reEnd]])]

/-- Conversion of one `findall` result to the candidate value (line 140):
the bare string for a single group, else the space-join of the non-empty
components of the tuple. -/
def joinCaps (caps : List (List Char)) : String :=
  match caps with
  | [single] => String.mk single
  | tuple => String.intercalate " " ((tuple.map String.mk).filter (fun s => !s.isEmpty))

/-- The stop-word list of `_extract_facts` (line 143). -/
def stop_words : List String := ["the", "and", "but", "for"]

/-- The fact extractor `_extract_facts` (lines 131-151): run every pattern of
every type on the lower-cased text, trim each captured value, and keep the
values longer than 2 characters that are not stop words. -/
def extract_facts (text : String) : List FactCand :=
  let text_lower := (lowerStr text).toList
  (fact_patterns.map (fun p =>
    (p.2.map (fun pattern =>
      (findall pattern text_lower).filterMap (fun caps =>
        let fact_value := trimStr (joinCaps caps)
        if 2 < fact_value.length ∧ fact_value ∉ stop_words then
          some { type := p.1, value := fact_value, confidence := 0.8,
                 source := text.take 100 }
        else none))).flatten)).flatten

/-- The combined turn-recording operation `store_conversation_with_memory`
(lines 98-129) as its ordered trace of primitive writes: the archive insert
comes first, then one fact upsert per extracted candidate, then the theme
update. -/
noncomputable def turnActions (gen : Option (List ℚ))
    (user_id user_message assistant_response emotion : String)
    (recalled_context : ContextBundle) (now : Nat) : List TurnAction :=
  let extracted_facts := extract_facts user_message
  TurnAction.archiveInsert
      (conversation_doc gen user_id user_message assistant_response emotion
        recalled_context now extracted_facts.length)
    :: (extracted_facts.map (TurnAction.factUpsert user_id)
        ++ [TurnAction.themeUpdate user_id user_message emotion])

/-- The combined turn-recording operation, executed to completion. -/
noncomputable def store_conversation_with_memory (gen : Option (List ℚ))
    (st : SysState) (user_id user_message assistant_response emotion : String)
    (recalled_context : ContextBundle) (now : Nat) : SysState :=
  (turnActions gen user_id user_message assistant_response emotion
    recalled_context now).foldl (applyAction now) st

/-- One invocation of `_update_memory_themes`: the arguments of a theme-touch
operation. -/
structure TouchOp where
  user_id : String
  message : String
  emotion : String
  now : Nat

/-- A sequence of theme-touch operations applied to the memories collection. -/
def applyTouchOps (init : List ThemeAggregate) (ops : List TouchOp) : List ThemeAggregate :=
  ops.foldl (fun c op => update_memory_themes c op.user_id op.message op.emotion op.now) init

/-- The document filter for the `(user_id, theme)` aggregate. -/
def themeKey (user_id theme : String) (t : ThemeAggregate) : Bool :=
  decide (t.user_id = user_id ∧ t.theme = theme)

/-- The operations of a sequence that touch a given `(user_id, theme)`
aggregate: same user, and the theme fires on the message. -/
def touchesFor (uid theme : String) (ops : List TouchOp) : List TouchOp :=
  ops.filter (fun op => decide (op.user_id = uid ∧ theme ∈ extract_themes op.message))

/-- Effect of one touch on the (optional) existing `(user_id, theme)`
aggregate: creation with frequency 1, or increment plus bounded pushes. -/
def touchUpd (user_id theme emotion excerpt : String) (now : Nat) :
    Option ThemeAggregate → ThemeAggregate
  | none => { user_id := user_id, theme := theme, frequency := 1,
              emotions := [emotion], snippets := [excerpt], last_discussed := now }
  | some t =>
      { t with
          frequency := t.frequency + 1
          last_discussed := now
          emotions := t.emotions ++ [emotion]
          snippets := lastN 5 (t.snippets ++ [excerpt]) }

/-- Iterated effect of the touches of a sequence of operations on one
`(user_id, theme)` aggregate. -/
def updFold (uid theme : String) (ops : List TouchOp) (acc : Option ThemeAggregate) :
    Option ThemeAggregate :=
  ops.foldl
    (fun a op => some (touchUpd uid theme op.emotion (op.message.take 100) op.now a))
    acc

/-- All fact views appearing in a grouping, in group order. -/
def allVals (g : List (String × List FactView)) : List FactView := (g.map Prod.snd).flatten

/-- Test fixture: an archived turn whose embedding `[-1]` points opposite to
the query embedding `[1]`. -/
noncomputable def negConvDoc : ConversationDoc :=
  { user_id := "u", user_message := "m", assistant_response := "r", emotion := "e",
    embedding := [-1], timestamp := 0, context_strength := 0, facts_extracted := 0 }

/-- Test fixture: an archived turn whose embedding equals the query
embedding `[1]`. -/
noncomputable def posConvDoc : ConversationDoc :=
  { user_id := "u", user_message := "m", assistant_response := "r", emotion := "e",
    embedding := [1], timestamp := 0, context_strength := 0, facts_extracted := 0 }

/-- Test fixture: an archived turn with the two-dimensional embedding
`[1, 2]`. -/
noncomputable def conv2Doc : ConversationDoc :=
  { user_id := "u", user_message := "m2", assistant_response := "r2", emotion := "e2",
    embedding := [1, 2], timestamp := 1, context_strength := 0, facts_extracted := 0 }

/-- Test fixture: one stored fact for user `u`. -/
def bobFact : FactDoc :=
  { user_id := "u", type := "name", value := "bob", confidence := 0.8, source := "s",
    first_mentioned := 0, last_mentioned := 0, mention_count := 1 }

set_option maxRecDepth 100000

/-- Claim C2, counterexample: on the scenario message the extractor produces
no candidate whose value is "teacher" (for any fact type), and the theme
labels do not include "hobby"; the claimed outputs do not occur. -/
theorem c2_counterexample :
    ((extract_facts "I work as a teacher and I love painting on weekends").all
      (fun f => f.value != "teacher")) = true ∧
    "hobby" ∉ extract_themes "I work as a teacher and I love painting on weekends" :=
  ⟨by decide, by decide⟩

/-- Claim C2, amended: extracting from the scenario message yields exactly a
job candidate whose value is the whole tail "teacher and i love painting on
weekends" (the lazy capture only stops at a period, comma or end of string,
and the message has no period or comma) and a hobby candidate "painting on
weekends"; the theme labels are exactly [work, relationships] (the keyword
"love" fires relationships; no hobby keyword occurs in the message). -/
theorem c2_extraction_scenario :
    extract_facts "I work as a teacher and I love painting on weekends" =
      [{ type := "job", value := "teacher and i love painting on weekends",
         confidence := 0.8, source := "I work as a teacher and I love painting on weekends" },
       { type := "hobby", value := "painting on weekends",
         confidence := 0.8, source := "I work as a teacher and I love painting on weekends" }] ∧
    extract_themes "I work as a teacher and I love painting on weekends" =
      ["work", "relationships"] :=
  ⟨by rfl, by decide⟩

/-- Claim C4, counterexample: the classifier emits the label "stress", which
is not in the enumeration the claim allows. -/
theorem c4_counterexample :
    extract_themes "stress" = ["stress"] ∧ "stress" ∉ specThemeEnumeration :=
  ⟨by decide, by decide⟩

/-- Claim C4, amended: every label returned by the theme classifier belongs
to the code's closed enumeration work, family, relationships, health,
stress, hobby, future, education, general (which differs from the one the
claim lists), and on any input where no theme's keyword fires the classifier
returns exactly ["general"]. -/
theorem c4_theme_label_enumeration (text : String) :
    (∀ l ∈ extract_themes text, l ∈ codeThemeLabels) ∧
    ((∀ p ∈ theme_keywords, ∀ keyword ∈ p.2,
        containsSub (lowerStr text).toList keyword.toList = false) →
      extract_themes text = ["general"]) := by
  constructor
  · intro l hl
    simp only [extract_themes] at hl
    split at hl
    · simp only [List.mem_singleton] at hl
      subst hl
      simp [codeThemeLabels]
    · rcases List.mem_map.mp hl with ⟨p, hp, rfl⟩
      exact List.mem_append.mpr
        (Or.inl (List.mem_map_of_mem _ (List.mem_of_mem_filter hp)))
  · intro hnone
    have hfil : theme_keywords.filter
        (fun p => p.2.any (fun keyword => containsSub (lowerStr text).toList keyword.toList))
          = [] := by
      rw [List.filter_eq_nil_iff]
      intro p hp hany
      rcases List.any_eq_true.mp hany with ⟨keyword, hk, hc⟩
      rw [hnone p hp keyword hk] at hc
      exact Bool.false_ne_true hc
    simp only [extract_themes]
    rw [hfil]
    rfl

/-- Witness for C4: at the concrete inputs "qqq" (no keyword fires, result is
exactly ["general"]) and "work" (the emitted label lies in the code's
enumeration). -/
theorem c4_theme_label_enumeration_witness :
    extract_themes "qqq" = ["general"] ∧ "work" ∈ codeThemeLabels :=
  ⟨(c4_theme_label_enumeration "qqq").2 (by decide),
   (c4_theme_label_enumeration "work").1 "work" (by decide)⟩

/-- Helper: the upsert walks past a prefix containing no matching document. -/
theorem store_fact_skip (coll rest : List FactDoc) (uid : String) (cand : FactCand) (now : Nat)
    (h : ∀ f ∈ coll, factQuery uid cand f = false) :
    store_fact (coll ++ rest) uid cand now = coll ++ store_fact rest uid cand now := by
  induction coll with
  | nil => simp
  | cons f c ih =>
      simp only [List.cons_append, store_fact]
      rw [h f (List.mem_cons_self _ _)]
      simp only [Bool.false_eq_true, if_false, List.cons.injEq, true_and]
      exact ih (fun g hg => h g (List.mem_cons_of_mem _ hg))

/-- Helper: the upsert never pushes a confidence above 1. -/
theorem store_fact_confidence_le (coll : List FactDoc) (uid : String) (cand : FactCand)
    (now : Nat) (hcoll : ∀ f ∈ coll, f.confidence ≤ 1) (hcand : cand.confidence ≤ 1) :
    ∀ f ∈ store_fact coll uid cand now, f.confidence ≤ 1 := by
  induction coll with
  | nil =>
      intro f hf
      simp only [store_fact, List.mem_singleton] at hf
      subst hf
      exact hcand
  | cons g rest ih =>
      intro f hf
      simp only [store_fact] at hf
      by_cases hq : factQuery uid cand g = true
      · rw [if_pos hq] at hf
        rcases List.mem_cons.mp hf with rfl | hf
        · simp [bumpFact]
        · exact hcoll f (List.mem_cons_of_mem _ hf)
      · rw [if_neg hq] at hf
        rcases List.mem_cons.mp hf with rfl | hf
        · exact hcoll f (List.mem_cons_self _ _)
        · exact ih (fun g hg => hcoll g (List.mem_cons_of_mem _ hg)) f hf

/-- Helper: `find?` skips a prefix on which the predicate is false. -/
theorem find?_append_of_forall_false {α : Type} (p : α → Bool) (l₁ l₂ : List α)
    (h : ∀ a ∈ l₁, p a = false) : List.find? p (l₁ ++ l₂) = List.find? p l₂ := by
  induction l₁ with
  | nil => rfl
  | cons a t ih =>
      simp only [List.cons_append, List.find?]
      rw [h a (List.mem_cons_self _ _)]
      exact ih (fun b hb => h b (List.mem_cons_of_mem _ hb))

/-- Claim C5: in a store with no record matching `(uid, t, v₁)`
case-insensitively, two upserts of candidates with the same type and
case-insensitively equal values leave exactly one matching record, with
`mention_count = 2`, confidence equal to the first candidate's base raised
by one increment of 1/10 and capped at 1, and the timestamps updated; and
under any sequence of upserts whose candidates have confidence at most 1,
every stored confidence stays at most 1. -/
theorem c5_fact_reinforcement :
    (∀ (coll : List FactDoc) (uid t v₁ v₂ src₁ src₂ : String) (c₁ c₂ : ℚ) (now₁ now₂ : Nat),
      lowerStr v₁ = lowerStr v₂ →
      (∀ f ∈ coll, factQuery uid ⟨t, v₁, c₁, src₁⟩ f = false) →
      ((store_fact (store_fact coll uid ⟨t, v₁, c₁, src₁⟩ now₁) uid
          ⟨t, v₂, c₂, src₂⟩ now₂).countP (factQuery uid ⟨t, v₁, c₁, src₁⟩) = 1 ∧
       (store_fact (store_fact coll uid ⟨t, v₁, c₁, src₁⟩ now₁) uid
          ⟨t, v₂, c₂, src₂⟩ now₂).find? (factQuery uid ⟨t, v₁, c₁, src₁⟩) =
         some { user_id := uid, type := t, value := v₁,
                confidence := min (c₁ + 1/10) 1, source := src₁,
                first_mentioned := now₁, last_mentioned := now₂, mention_count := 2 })) ∧
    (∀ (coll : List FactDoc) (ops : List (String × FactCand × Nat)),
      (∀ f ∈ coll, f.confidence ≤ 1) →
      (∀ op ∈ ops, op.2.1.confidence ≤ 1) →
      ∀ f ∈ ops.foldl (fun c op => store_fact c op.1 op.2.1 op.2.2) coll,
        f.confidence ≤ 1) := by
  constructor
  · intro coll uid t v₁ v₂ src₁ src₂ c₁ c₂ now₁ now₂ hv h₁
    have hq : ∀ (f : FactDoc),
        factQuery uid ⟨t, v₁, c₁, src₁⟩ f = factQuery uid ⟨t, v₂, c₂, src₂⟩ f := by
      intro f
      simp only [factQuery, hv]
    have hd₁ : store_fact coll uid ⟨t, v₁, c₁, src₁⟩ now₁ =
        coll ++ [mkFactDoc uid ⟨t, v₁, c₁, src₁⟩ now₁] := by
      have h := store_fact_skip coll [] uid ⟨t, v₁, c₁, src₁⟩ now₁ h₁
      simpa using h
    have h₂ : ∀ f ∈ coll, factQuery uid ⟨t, v₂, c₂, src₂⟩ f = false := by
      intro f hf
      rw [← hq f]
      exact h₁ f hf
    have hq₁d : factQuery uid ⟨t, v₁, c₁, src₁⟩ (mkFactDoc uid ⟨t, v₁, c₁, src₁⟩ now₁) = true := by
      simp [factQuery, mkFactDoc]
    have hq₂d : factQuery uid ⟨t, v₂, c₂, src₂⟩ (mkFactDoc uid ⟨t, v₁, c₁, src₁⟩ now₁) = true := by
      rw [← hq]
      exact hq₁d
    have hstep : store_fact (coll ++ [mkFactDoc uid ⟨t, v₁, c₁, src₁⟩ now₁]) uid
        ⟨t, v₂, c₂, src₂⟩ now₂ =
        coll ++ [bumpFact (mkFactDoc uid ⟨t, v₁, c₁, src₁⟩ now₁) now₂] := by
      rw [store_fact_skip _ _ _ _ _ h₂]
      congr 1
      simp only [store_fact]
      rw [hq₂d]
      simp
    have hbump : bumpFact (mkFactDoc uid ⟨t, v₁, c₁, src₁⟩ now₁) now₂ =
        { user_id := uid, type := t, value := v₁, confidence := min (c₁ + 1/10) 1,
          source := src₁, first_mentioned := now₁, last_mentioned := now₂,
          mention_count := 2 } := rfl
    rw [hd₁, hstep, hbump]
    constructor
    · rw [List.countP_append]
      have hzero : coll.countP (factQuery uid ⟨t, v₁, c₁, src₁⟩) = 0 :=
        List.countP_eq_zero.mpr (fun f hf => by rw [h₁ f hf]; exact Bool.false_ne_true)
      rw [hzero]
      simp [List.countP_cons, factQuery]
    · rw [find?_append_of_forall_false _ _ _ h₁]
      simp [List.find?, factQuery]
  · intro coll ops
    induction ops generalizing coll with
    | nil =>
        intro h _ f hf
        exact h f hf
    | cons op rest ih =>
        intro hcoll hops f hf
        simp only [List.foldl_cons] at hf
        exact ih _
          (store_fact_confidence_le _ _ _ _ hcoll (hops op (List.mem_cons_self _ _)))
          (fun o ho => hops o (List.mem_cons_of_mem _ ho)) f hf

/-- Witness for C5: upserting "Teacher" then "teacher" for the same user into
an empty store leaves one matching record with mention count 2 and capped
bumped confidence, and a concrete upsert sequence keeps confidence at most 1. -/
theorem c5_fact_reinforcement_witness :
    ((store_fact (store_fact [] "u" ⟨"job", "Teacher", 0.8, "s1"⟩ 3) "u"
        ⟨"job", "teacher", 0.8, "s2"⟩ 7).countP
          (factQuery "u" ⟨"job", "Teacher", 0.8, "s1"⟩) = 1 ∧
     (store_fact (store_fact [] "u" ⟨"job", "Teacher", 0.8, "s1"⟩ 3) "u"
        ⟨"job", "teacher", 0.8, "s2"⟩ 7).find?
          (factQuery "u" ⟨"job", "Teacher", 0.8, "s1"⟩) =
       some { user_id := "u", type := "job", value := "Teacher",
              confidence := min ((0.8 : ℚ) + 1/10) 1, source := "s1",
              first_mentioned := 3, last_mentioned := 7, mention_count := 2 }) ∧
    (mkFactDoc "u" ⟨"job", "nurse", 0.8, "s"⟩ 0).confidence ≤ 1 :=
  ⟨c5_fact_reinforcement.1 [] "u" "job" "Teacher" "teacher" "s1" "s2" 0.8 0.8 3 7
      (by decide) (by simp),
   c5_fact_reinforcement.2 [] [("u", ⟨"job", "nurse", 0.8, "s"⟩, 0)]
      (by simp) (by intro op hop; simp only [List.mem_singleton] at hop; subst hop; norm_num)
      (mkFactDoc "u" ⟨"job", "nurse", 0.8, "s"⟩ 0)
      (by simp [store_fact])⟩

/-- Claim C7: the embedding client turns a generator failure into the empty
vector; recall returns the empty bundle (context strength 0, no
conversations) when the query embedding is empty, and likewise when the
candidate pool is empty — in both cases by total computation, never by
raising. -/
theorem c7_recall_graceful_degradation (gen : String → Option (List ℚ))
    (conversations : List ConversationDoc) (factsColl : List FactDoc)
    (memoryColl : List ThemeAggregate) (user_id current_query : String) (k : Nat) :
    generate_embedding none = [] ∧
    ((generate_embedding (gen current_query)).isEmpty = true →
      recall_relevant_context gen conversations factsColl memoryColl user_id current_query k
        = emptyBundle) ∧
    ((candidatePool conversations user_id).isEmpty = true →
      recall_relevant_context gen conversations factsColl memoryColl user_id current_query k
        = emptyBundle) := by
  refine ⟨rfl, ?_, ?_⟩
  · intro h
    simp only [recall_relevant_context]
    rw [if_pos h]
  · intro h
    simp only [recall_relevant_context]
    by_cases he : (generate_embedding (gen current_query)).isEmpty = true
    · rw [if_pos he]
    · rw [if_neg he, if_pos h]

/-- Witness for C7: a failing generator and an empty archive each produce the
empty bundle at concrete inputs. -/
theorem c7_recall_graceful_degradation_witness :
    recall_relevant_context (fun _ => none) [] [] [] "u" "q" 5 = emptyBundle ∧
    recall_relevant_context (fun _ => some [1]) [] [] [] "u" "q" 5 = emptyBundle :=
  ⟨(c7_recall_graceful_degradation (fun _ => none) [] [] [] "u" "q" 5).2.1 rfl,
   (c7_recall_graceful_degradation (fun _ => some [1]) [] [] [] "u" "q" 5).2.2 (by
      simp [candidatePool, List.mergeSort])⟩

/-- Claim C8: the similarity pass of recall only pairs candidates whose
embedding has the query dimension (candidates of other dimensions are
excluded from ranking entirely, not scored), and cosine similarity of
equal-dimension vectors is 0 whenever either has zero norm — the division is
never performed with a zero denominator. -/
theorem c8_dimension_and_zero_norm_safety (query_embedding : List ℚ)
    (convs : List ConversationDoc) (vec₁ vec₂ : List ℚ) :
    (∀ p ∈ similarityEntries query_embedding convs,
        p.1.embedding.length = query_embedding.length) ∧
    (∀ c ∈ convs, c.embedding.length ≠ query_embedding.length →
        ∀ p ∈ similarityEntries query_embedding convs, p.1 ≠ c) ∧
    (vec₁.length = vec₂.length → sqNorm vec₁ = 0 ∨ sqNorm vec₂ = 0 →
        cosine_similarity vec₁ vec₂ = 0) := by
  have hmem : ∀ p ∈ similarityEntries query_embedding convs,
      p.1.embedding.length = query_embedding.length := by
    intro p hp
    simp only [similarityEntries, List.mem_map] at hp
    rcases hp with ⟨c, hc, rfl⟩
    have hfc := List.of_mem_filter hc
    simpa using hfc
  refine ⟨hmem, ?_, ?_⟩
  · intro c hc hne p hp heq
    exact hne (by rw [← heq]; exact hmem p hp)
  · intro hlen hz
    have hnorm : norm2 vec₁ = 0 ∨ norm2 vec₂ = 0 := by
      rcases hz with h | h
      · exact Or.inl (by rw [norm2, h]; simp)
      · exact Or.inr (by rw [norm2, h]; simp)
    unfold cosine_similarity
    rw [if_neg (by simp [hlen]), if_pos hnorm]

/-- Witness for C8: at concrete inputs, an equal-dimension candidate is kept
with its dimension intact, a lower-dimensional candidate is excluded, and a
zero vector has similarity 0 against an equal-length nonzero vector. -/
theorem c8_dimension_and_zero_norm_safety_witness :
    conv2Doc.embedding.length = ([1, 2] : List ℚ).length ∧
    conv2Doc ≠ negConvDoc ∧
    cosine_similarity [0, 0] [1, 1] = 0 :=
  ⟨(c8_dimension_and_zero_norm_safety [1, 2] [conv2Doc] [] []).1
      (conv2Doc, cosine_similarity [1, 2] conv2Doc.embedding)
      (by simp [similarityEntries, conv2Doc]),
   (c8_dimension_and_zero_norm_safety [1, 2] [conv2Doc, negConvDoc] [] []).2.1 negConvDoc
      (by simp) (by simp [negConvDoc])
      (conv2Doc, cosine_similarity [1, 2] conv2Doc.embedding)
      (by simp [similarityEntries, conv2Doc, negConvDoc]),
   (c8_dimension_and_zero_norm_safety [] [] [0, 0] [1, 1]).2.2 (by simp)
      (Or.inl (by norm_num [sqNorm, dotProduct]))⟩

/-- Claim C6, counterexample: with a non-empty query embedding but no
archived conversation, recall early-returns the empty bundle — the user's
stored facts are not in it, even though the fact store has one. -/
theorem c6_counterexample :
    (recall_relevant_context (fun _ => some [1]) [] [bobFact] [] "u" "q" 5).facts = [] ∧
    get_user_facts [bobFact] "u" ≠ [] := by
  constructor
  · simp only [recall_relevant_context]
    rw [if_neg (by simp [generate_embedding]),
      if_pos (by simp [candidatePool, List.mergeSort])]
    rfl
  · simp [get_user_facts, userFactsSorted, List.mergeSort, addToGroup, bobFact]

/-- Claim C6, amended: whenever the query embedding is non-empty and the
candidate pool is non-empty, the returned bundle carries the user's facts
grouped by type and the user's top themes (limit 5, by frequency),
independent of the similarity computation; when the pool is empty, recall
instead returns the empty bundle without them. -/
theorem c6_profile_in_bundle (gen : String → Option (List ℚ))
    (conversations : List ConversationDoc) (factsColl : List FactDoc)
    (memoryColl : List ThemeAggregate) (user_id current_query : String) (k : Nat)
    (h₁ : (generate_embedding (gen current_query)).isEmpty = false)
    (h₂ : (candidatePool conversations user_id).isEmpty = false) :
    (recall_relevant_context gen conversations factsColl memoryColl
        user_id current_query k).facts = get_user_facts factsColl user_id ∧
    (recall_relevant_context gen conversations factsColl memoryColl
        user_id current_query k).themes = get_memory_themes memoryColl user_id := by
  simp only [recall_relevant_context]
  rw [if_neg (by simp [h₁]), if_neg (by simp [h₂])]
  exact ⟨rfl, rfl⟩

/-- Witness for C6: with one archived embedded turn in the pool, the bundle
contains exactly the grouped facts and themes of the user. -/
theorem c6_profile_in_bundle_witness :
    (recall_relevant_context (fun _ => some [1]) [posConvDoc] [bobFact] [] "u" "q" 5).facts
      = get_user_facts [bobFact] "u" ∧
    (recall_relevant_context (fun _ => some [1]) [posConvDoc] [bobFact] [] "u" "q" 5).themes
      = get_memory_themes [] "u" :=
  c6_profile_in_bundle (fun _ => some [1]) [posConvDoc] [bobFact] [] "u" "q" 5
    rfl
    (by simp [candidatePool, posConvDoc, List.mergeSort])

/-- Helper: no primitive write of a turn removes an archived conversation. -/
theorem applyAction_conversations_mono (now : Nat) (st : SysState) (a : TurnAction)
    (doc : ConversationDoc) (h : doc ∈ st.conversations) :
    doc ∈ (applyAction now st a).conversations := by
  cases a with
  | archiveInsert d => exact List.mem_append.mpr (Or.inl h)
  | factUpsert uid fact => exact h
  | themeUpdate uid msg emo => exact h

/-- Helper: archived conversations survive any further primitive writes. -/
theorem foldl_conversations_mono (now : Nat) (acts : List TurnAction) (st : SysState)
    (doc : ConversationDoc) (h : doc ∈ st.conversations) :
    doc ∈ (acts.foldl (applyAction now) st).conversations := by
  induction acts generalizing st with
  | nil => exact h
  | cons a rest ih =>
      exact ih (applyAction now st a) (applyAction_conversations_mono now st a doc h)

/-- Claim C9: in the combined turn-recording operation the archive insert is
the first primitive write — before any fact upsert and before the theme
update, whatever the extraction produced — so after executing any non-empty
prefix of the writes (that is, even if a later fact or theme write fails),
the conversation document is in the archive. -/
theorem c9_archive_append_first (gen : Option (List ℚ)) (st : SysState)
    (user_id user_message assistant_response emotion : String)
    (recalled_context : ContextBundle) (now : Nat) (j : Nat) :
    (turnActions gen user_id user_message assistant_response emotion
        recalled_context now).head? =
      some (TurnAction.archiveInsert (conversation_doc gen user_id user_message
        assistant_response emotion recalled_context now
        (extract_facts user_message).length)) ∧
    conversation_doc gen user_id user_message assistant_response emotion
        recalled_context now (extract_facts user_message).length ∈
      (((turnActions gen user_id user_message assistant_response emotion
          recalled_context now).take (j + 1)).foldl (applyAction now) st).conversations := by
  constructor
  · rfl
  · simp only [turnActions, List.take_succ_cons, List.foldl_cons]
    apply foldl_conversations_mono
    exact List.mem_append.mpr (Or.inr (List.mem_singleton_self _))

/-- Witness for C9 at a concrete turn: after executing only the first write,
the conversation document is already archived. -/
theorem c9_archive_append_first_witness :
    conversation_doc (some [1]) "u" "hello there" "resp" "calm" emptyBundle 4
        (extract_facts "hello there").length ∈
      (((turnActions (some [1]) "u" "hello there" "resp" "calm" emptyBundle 4).take 1).foldl
        (applyAction 4) ⟨[], [], []⟩).conversations :=
  (c9_archive_append_first (some [1]) ⟨[], [], []⟩ "u" "hello there" "resp" "calm"
    emptyBundle 4 0).2

/-- Helper: one grouping step adds exactly one projected fact overall. -/
theorem addToGroup_sum_lengths (acc : List (String × List FactView)) (f : FactDoc) :
    ((addToGroup acc f).map (fun p => p.2.length)).sum =
      (acc.map (fun p => p.2.length)).sum + 1 := by
  induction acc with
  | nil => simp [addToGroup]
  | cons p rest ih =>
      simp only [addToGroup]
      by_cases h : p.1 = f.type
      · simp [h]
        omega
      · simp [h, ih]
        omega

/-- Helper: the grouping loop preserves the total number of projected facts. -/
theorem foldl_addToGroup_sum_lengths (fs : List FactDoc)
    (acc : List (String × List FactView)) :
    ((fs.foldl addToGroup acc).map (fun p => p.2.length)).sum =
      (acc.map (fun p => p.2.length)).sum + fs.length := by
  induction fs generalizing acc with
  | nil => simp
  | cons f rest ih =>
      simp only [List.foldl_cons, List.length_cons]
      rw [ih, addToGroup_sum_lengths]
      omega

/-- Helper: the views in the groups after one step are the old views plus the
new projection. -/
theorem mem_addToGroup (acc : List (String × List FactView)) (f : FactDoc) (v : FactView) :
    (∃ p ∈ addToGroup acc f, v ∈ p.2) ↔ (∃ p ∈ acc, v ∈ p.2) ∨ v = factView f := by
  induction acc with
  | nil => simp [addToGroup]
  | cons p rest ih =>
      simp only [addToGroup]
      by_cases h : p.1 = f.type
      · rw [if_pos (decide_eq_true h)]
        constructor
        · rintro ⟨q, hq, hv⟩
          rcases List.mem_cons.mp hq with rfl | hq
          · rcases List.mem_append.mp hv with hv | hv
            · exact Or.inl ⟨p, List.mem_cons_self _ _, hv⟩
            · exact Or.inr (List.mem_singleton.mp hv)
          · exact Or.inl ⟨q, List.mem_cons_of_mem _ hq, hv⟩
        · rintro (⟨q, hq, hv⟩ | rfl)
          · rcases List.mem_cons.mp hq with rfl | hq
            · exact ⟨(q.1, q.2 ++ [factView f]), List.mem_cons_self _ _,
                List.mem_append.mpr (Or.inl hv)⟩
            · exact ⟨q, List.mem_cons_of_mem _ hq, hv⟩
          · exact ⟨(p.1, p.2 ++ [factView f]), List.mem_cons_self _ _,
              List.mem_append.mpr (Or.inr (List.mem_singleton_self _))⟩
      · rw [if_neg (fun hc => h (of_decide_eq_true hc))]
        constructor
        · rintro ⟨q, hq, hv⟩
          rcases List.mem_cons.mp hq with rfl | hq
          · exact Or.inl ⟨q, List.mem_cons_self _ _, hv⟩
          · rcases ih.mp ⟨q, hq, hv⟩ with ⟨r, hr, hv'⟩ | hv'
            · exact Or.inl ⟨r, List.mem_cons_of_mem _ hr, hv'⟩
            · exact Or.inr hv'
        · rintro (⟨q, hq, hv⟩ | rfl)
          · rcases List.mem_cons.mp hq with rfl | hq
            · exact ⟨q, List.mem_cons_self _ _, hv⟩
            · rcases ih.mpr (Or.inl ⟨q, hq, hv⟩) with ⟨r, hr, hv'⟩
              exact ⟨r, List.mem_cons_of_mem _ hr, hv'⟩
          · rcases ih.mpr (Or.inr rfl) with ⟨r, hr, hv'⟩
            exact ⟨r, List.mem_cons_of_mem _ hr, hv'⟩

/-- Helper: the views in the groups are exactly the projections of the
grouped facts. -/
theorem mem_foldl_addToGroup (fs : List FactDoc) (acc : List (String × List FactView))
    (v : FactView) :
    (∃ p ∈ fs.foldl addToGroup acc, v ∈ p.2) ↔
      (∃ p ∈ acc, v ∈ p.2) ∨ v ∈ fs.map factView := by
  induction fs generalizing acc with
  | nil => simp
  | cons f rest ih =>
      simp only [List.foldl_cons, List.map_cons, List.mem_cons]
      rw [ih, mem_addToGroup]
      exact or_assoc

/-- Claim C10: the facts mapping is built from exactly the (at most) 100
highest-confidence facts of the user — the grouped views are precisely the
projections of the confidence-descending-sorted user facts truncated at 100
(facts beyond the cut are omitted), the total count across groups (the
profile's facts count) is `min(total, 100)`, and the truncated list is
ordered by confidence descending. -/
theorem c10_fact_read_path (coll : List FactDoc) (user_id : String) :
    ((get_user_facts coll user_id).map (fun p => p.2.length)).sum =
        min (coll.filter (fun f => decide (f.user_id = user_id))).length 100 ∧
    (∀ v, (∃ p ∈ get_user_facts coll user_id, v ∈ p.2) ↔
        v ∈ (userFactsSorted coll user_id).map factView) ∧
    List.Pairwise (fun a b : FactDoc => b.confidence ≤ a.confidence)
      (userFactsSorted coll user_id) := by
  refine ⟨?_, ?_, ?_⟩
  · rw [get_user_facts, foldl_addToGroup_sum_lengths]
    simp [userFactsSorted, min_comm]
  · intro v
    rw [get_user_facts, mem_foldl_addToGroup]
    simp
  · have htrans : ∀ (a b c : FactDoc), decide (b.confidence ≤ a.confidence) = true →
        decide (c.confidence ≤ b.confidence) = true →
        decide (c.confidence ≤ a.confidence) = true := by
      intro a b c hab hbc
      simp only [decide_eq_true_eq] at hab hbc ⊢
      exact le_trans hbc hab
    have htotal : ∀ (a b : FactDoc), (decide (b.confidence ≤ a.confidence)
        || decide (a.confidence ≤ b.confidence)) = true := by
      intro a b
      simp only [Bool.or_eq_true, decide_eq_true_eq]
      exact le_total b.confidence a.confidence
    have hp := List.sorted_mergeSort htrans htotal
      (coll.filter (fun f => decide (f.user_id = user_id)))
    exact List.Pairwise.sublist (List.take_sublist _ _)
      (hp.imp (fun hab => of_decide_eq_true hab))

/-- Witness for C10 at a one-fact store. -/
theorem c10_fact_read_path_witness :
    (((get_user_facts [bobFact] "u").map (fun p => p.2.length)).sum =
        min ([bobFact].filter (fun f => decide (f.user_id = "u"))).length 100) ∧
    ((∃ p ∈ get_user_facts [bobFact] "u", factView bobFact ∈ p.2) ↔
        factView bobFact ∈ (userFactsSorted [bobFact] "u").map factView) ∧
    List.Pairwise (fun a b : FactDoc => b.confidence ≤ a.confidence)
      (userFactsSorted [bobFact] "u") :=
  ⟨(c10_fact_read_path [bobFact] "u").1,
   (c10_fact_read_path [bobFact] "u").2.1 (factView bobFact),
   (c10_fact_read_path [bobFact] "u").2.2⟩

/-- Helper: a `$slice: -n` result never has more than `n` elements. -/
theorem lastN_length (n : Nat) (l : List α) : (lastN n l).length = min n l.length := by
  simp [lastN]

/-- Helper: a list no longer than the cap is kept whole by `$slice: -n`. -/
theorem lastN_of_length_le (n : Nat) (l : List α) (h : l.length ≤ n) : lastN n l = l := by
  simp only [lastN]
  rw [List.take_of_length_le (by simpa using h), List.reverse_reverse]

/-- Helper: slicing, appending and re-slicing is one slice of the whole
history — the FIFO window only ever depends on the full pushed sequence. -/
theorem lastN_append_lastN (n : Nat) (y z : List α) :
    lastN n (lastN n y ++ z) = lastN n (y ++ z) := by
  simp only [lastN, List.reverse_append, List.reverse_reverse]
  rw [List.take_append_eq_append_take, List.take_append_eq_append_take, List.take_take,
    min_eq_left (Nat.sub_le _ _)]

/-- Helper: one theme touch keeps every snippets sequence within the cap. -/
theorem touchTheme_snippets_le (coll : List ThemeAggregate) (u θ e x : String) (now : Nat)
    (h : ∀ t ∈ coll, t.snippets.length ≤ 5) :
    ∀ t ∈ touchTheme coll u θ e x now, t.snippets.length ≤ 5 := by
  induction coll with
  | nil =>
      intro t ht
      simp only [touchTheme, List.mem_singleton] at ht
      subst ht
      simp
  | cons a rest ih =>
      intro t ht
      simp only [touchTheme] at ht
      by_cases hk : a.user_id = u ∧ a.theme = θ
      · rw [if_pos (decide_eq_true hk)] at ht
        rcases List.mem_cons.mp ht with rfl | ht
        · show (lastN 5 (a.snippets ++ [x])).length ≤ 5
          rw [lastN_length]
          exact min_le_left _ _
        · exact h t (List.mem_cons_of_mem _ ht)
      · rw [if_neg (fun hc => hk (of_decide_eq_true hc))] at ht
        rcases List.mem_cons.mp ht with rfl | ht
        · exact h t (List.mem_cons_self _ _)
        · exact ih (fun s hs => h s (List.mem_cons_of_mem _ hs)) t ht

/-- Helper: one `_update_memory_themes` call keeps snippets within the cap. -/
theorem update_memory_themes_snippets_le (coll : List ThemeAggregate)
    (u msg emo : String) (now : Nat) (h : ∀ t ∈ coll, t.snippets.length ≤ 5) :
    ∀ t ∈ update_memory_themes coll u msg emo now, t.snippets.length ≤ 5 := by
  rw [update_memory_themes]
  generalize extract_themes msg = L
  induction L generalizing coll with
  | nil => exact h
  | cons θ rest ih =>
      simp only [List.foldl_cons]
      exact ih _ (touchTheme_snippets_le _ _ _ _ _ _ h)

/-- Helper: the snippets cap is invariant under any touch sequence. -/
theorem applyTouchOps_snippets_le (ops : List TouchOp) (coll : List ThemeAggregate)
    (h : ∀ t ∈ coll, t.snippets.length ≤ 5) :
    ∀ t ∈ applyTouchOps coll ops, t.snippets.length ≤ 5 := by
  induction ops generalizing coll with
  | nil => exact h
  | cons op rest ih =>
      simp only [applyTouchOps, List.foldl_cons] at ih ⊢
      exact ih _ (update_memory_themes_snippets_le _ _ _ _ _ h)

/-- Claim C1, counterexample: after six touches of the work theme for one
user, the aggregate's emotions sequence has six entries — the cap of 5 does
not hold for emotions. -/
theorem c1_counterexample :
    5 < (((List.range 6).foldl
        (fun c _ => update_memory_themes c "u" "work" "calm" 0) []).getD 0
          default).emotions.length := by decide

/-- Helper: the classifier never repeats a theme (the table keys are
distinct and it filters them). -/
theorem extract_themes_nodup (text : String) : (extract_themes text).Nodup := by
  simp only [extract_themes]
  split
  · exact List.nodup_singleton _
  · have hsub : List.Sublist
        ((theme_keywords.filter
          (fun p => p.2.any (fun keyword =>
            containsSub (lowerStr text).toList keyword.toList))).map Prod.fst)
        (theme_keywords.map Prod.fst) :=
      (List.filter_sublist _).map _
    exact List.Nodup.sublist hsub (by decide)

/-- Helper: the lookup key only inspects the identity fields, which a touch
update leaves unchanged. -/
theorem themeKey_update (t : ThemeAggregate) (e x : String) (now : Nat)
    (uid theme : String) :
    themeKey uid theme
      { t with
          frequency := t.frequency + 1
          last_discussed := now
          emotions := t.emotions ++ [e]
          snippets := lastN 5 (t.snippets ++ [x]) } = themeKey uid theme t := rfl

/-- Helper: how one theme touch changes the result of the `(uid, theme)`
lookup — the touched key is updated (or created), all others are unchanged. -/
theorem find?_touchTheme (coll : List ThemeAggregate) (u θ e x : String) (now : Nat)
    (uid theme : String) :
    (touchTheme coll u θ e x now).find? (themeKey uid theme) =
      if u = uid ∧ θ = theme then
        some (touchUpd u θ e x now (coll.find? (themeKey uid theme)))
      else coll.find? (themeKey uid theme) := by
  induction coll with
  | nil =>
      simp only [touchTheme, List.find?_nil]
      by_cases h : u = uid ∧ θ = theme
      · rw [if_pos h]
        have hk : themeKey uid theme
            ⟨u, θ, 1, [e], [x], now⟩ = true := decide_eq_true ⟨h.1, h.2⟩
        rw [List.find?_cons_of_pos _ hk]
        rfl
      · rw [if_neg h]
        have hk : ¬ themeKey uid theme ⟨u, θ, 1, [e], [x], now⟩ = true := by
          intro hc
          exact h (of_decide_eq_true hc)
        rw [List.find?_cons_of_neg _ hk, List.find?_nil]
  | cons t rest ih =>
      simp only [touchTheme]
      by_cases htouch : t.user_id = u ∧ t.theme = θ
      · rw [if_pos (decide_eq_true htouch)]
        by_cases hkey : u = uid ∧ θ = theme
        · have htk : themeKey uid theme t = true :=
            decide_eq_true ⟨htouch.1.trans hkey.1, htouch.2.trans hkey.2⟩
          rw [if_pos hkey, List.find?_cons_of_pos _ (by rw [themeKey_update]; exact htk),
            List.find?_cons_of_pos _ htk]
          rfl
        · have htk : ¬ themeKey uid theme t = true := by
            intro hc
            rcases of_decide_eq_true hc with ⟨h1, h2⟩
            exact hkey ⟨htouch.1.symm.trans h1, htouch.2.symm.trans h2⟩
          rw [if_neg hkey, List.find?_cons_of_neg _ (by rw [themeKey_update]; exact htk),
            List.find?_cons_of_neg _ htk]
      · rw [if_neg (fun hc => htouch (of_decide_eq_true hc))]
        by_cases htk : themeKey uid theme t = true
        · have hkey : ¬ (u = uid ∧ θ = theme) := by
            rintro ⟨h1, h2⟩
            rcases of_decide_eq_true htk with ⟨h3, h4⟩
            exact htouch ⟨h3.trans h1.symm, h4.trans h2.symm⟩
          rw [if_neg hkey, List.find?_cons_of_pos _ htk, List.find?_cons_of_pos _ htk]
        · rw [List.find?_cons_of_neg _ htk, List.find?_cons_of_neg _ htk, ih]

/-- Helper: how one `_update_memory_themes` call (a fold of touches over the
distinct extracted themes) changes the `(uid, theme)` lookup. -/
theorem find?_touch_foldl (L : List String) (hnd : L.Nodup) (coll : List ThemeAggregate)
    (u e x : String) (now : Nat) (uid theme : String) :
    (L.foldl (fun c θ => touchTheme c u θ e x now) coll).find? (themeKey uid theme) =
      if u = uid ∧ theme ∈ L then
        some (touchUpd u theme e x now (coll.find? (themeKey uid theme)))
      else coll.find? (themeKey uid theme) := by
  induction L generalizing coll with
  | nil => simp
  | cons θ rest ih =>
      simp only [List.foldl_cons]
      rw [ih (List.Nodup.of_cons hnd), find?_touchTheme]
      by_cases h2 : u = uid ∧ θ = theme
      · obtain ⟨hu, hθ⟩ := h2
        have hnin : θ ∉ rest := (List.nodup_cons.mp hnd).1
        have houter : ¬ (u = uid ∧ theme ∈ rest) := by
          rintro ⟨_, hmem⟩
          refine hnin ?_
          rw [hθ]
          exact hmem
        have hinner : u = uid ∧ θ = theme := ⟨hu, hθ⟩
        have hrhs : u = uid ∧ theme ∈ θ :: rest :=
          ⟨hu, by rw [← hθ]; exact List.mem_cons_self _ _⟩
        rw [if_neg houter, if_pos hinner, if_pos hrhs, hθ]
      · rw [if_neg h2]
        by_cases h3 : u = uid ∧ theme ∈ rest
        · rw [if_pos h3, if_pos ⟨h3.1, List.mem_cons_of_mem _ h3.2⟩]
        · rw [if_neg h3]
          have h4 : ¬ (u = uid ∧ theme ∈ θ :: rest) := by
            rintro ⟨hu, hmem⟩
            rcases List.mem_cons.mp hmem with rfl | hmem
            · exact h2 ⟨hu, rfl⟩
            · exact h3 ⟨hu, hmem⟩
          rw [if_neg h4]

/-- Helper: over a touch-operation sequence, the `(uid, theme)` lookup is the
fold of the per-touch update over exactly the relevant operations. -/
theorem find?_applyTouchOps (ops : List TouchOp) (coll : List ThemeAggregate)
    (uid theme : String) :
    (applyTouchOps coll ops).find? (themeKey uid theme) =
      updFold uid theme (touchesFor uid theme ops) (coll.find? (themeKey uid theme)) := by
  induction ops generalizing coll with
  | nil => rfl
  | cons op rest ih =>
      simp only [applyTouchOps, List.foldl_cons] at ih ⊢
      rw [ih, update_memory_themes,
        find?_touch_foldl (extract_themes op.message) (extract_themes_nodup op.message)]
      simp only [touchesFor, List.filter_cons]
      by_cases hc : op.user_id = uid ∧ theme ∈ extract_themes op.message
      · rw [if_pos hc, if_pos (decide_eq_true hc)]
        simp only [updFold, List.foldl_cons]
        rw [hc.1]
      · rw [if_neg hc, if_neg (fun hd => hc (of_decide_eq_true hd))]

/-- Helper: closed form of the iterated touch update on an existing
aggregate whose snippets are within the cap: frequency counts every touch,
emotions accumulate unboundedly, snippets are the `$slice`-window over the
whole pushed history. -/
theorem updFold_some_of_le (uid theme : String) (ops : List TouchOp) :
    ∀ (t : ThemeAggregate), t.snippets.length ≤ 5 →
    updFold uid theme ops (some t) =
      some { user_id := t.user_id, theme := t.theme,
             frequency := t.frequency + ops.length,
             emotions := t.emotions ++ ops.map (fun op => op.emotion),
             snippets := lastN 5 (t.snippets ++ ops.map (fun op => op.message.take 100)),
             last_discussed := (ops.map (fun op => op.now)).getLastD t.last_discussed } := by
  induction ops with
  | nil =>
      intro t h
      simp only [updFold, List.foldl_nil, List.length_nil, Nat.add_zero, List.map_nil,
        List.append_nil, List.getLastD_nil]
      rw [lastN_of_length_le 5 t.snippets h]
  | cons op rest ih =>
      intro t h
      simp only [updFold, List.foldl_cons] at ih ⊢
      rw [ih (touchUpd uid theme op.emotion (op.message.take 100) op.now (some t))
        (by simp only [touchUpd]; rw [lastN_length]; exact min_le_left _ _)]
      apply congrArg some
      simp only [touchUpd, List.map_cons, List.length_cons, List.getLastD_cons]
      rw [lastN_append_lastN, List.append_assoc, List.append_assoc,
        List.singleton_append, List.singleton_append]
      congr 1
      omega

/-- Helper: closed form of the iterated touch update starting from a missing
aggregate (the upsert path): created by the first touch, then updated. -/
theorem updFold_none (uid theme : String) (op : TouchOp) (ops : List TouchOp) :
    updFold uid theme (op :: ops) none =
      some { user_id := uid, theme := theme,
             frequency := 1 + ops.length,
             emotions := op.emotion :: ops.map (fun o => o.emotion),
             snippets := lastN 5 (op.message.take 100 :: ops.map (fun o => o.message.take 100)),
             last_discussed := (ops.map (fun o => o.now)).getLastD op.now } := by
  simp only [updFold, List.foldl_cons]
  have hbase := updFold_some_of_le uid theme ops
    (touchUpd uid theme op.emotion (op.message.take 100) op.now none) (by simp [touchUpd])
  simp only [updFold] at hbase
  rw [hbase]
  simp [touchUpd]

/-- Claim C1, amended: after any sequence of theme-touch operations starting
from an empty memories collection, every aggregate's snippets sequence has
at most 5 entries and equals the FIFO window of the last 5 pushed excerpts,
but the emotions sequence is not capped: the `(user, theme)` aggregate holds
one emotion per touch of that theme (so it exceeds 5 entries as soon as the
theme is touched six times), with frequency counting all its touches. -/
theorem c1_theme_sequence_bounds (ops : List TouchOp) (uid theme : String) :
    (∀ agg ∈ applyTouchOps [] ops, agg.snippets.length ≤ 5) ∧
    ((applyTouchOps [] ops).find? (themeKey uid theme)).map
        (fun agg => (agg.frequency, agg.emotions, agg.snippets)) =
      (if (touchesFor uid theme ops).isEmpty then none
       else some ((touchesFor uid theme ops).length,
                  (touchesFor uid theme ops).map (fun op => op.emotion),
                  lastN 5 ((touchesFor uid theme ops).map
                    (fun op => op.message.take 100)))) := by
  constructor
  · exact applyTouchOps_snippets_le ops [] (by simp)
  · rw [find?_applyTouchOps]
    cases htl : touchesFor uid theme ops with
    | nil => rfl
    | cons op rest =>
        rw [List.find?_nil, updFold_none]
        simp only [Option.map_some, List.isEmpty_cons, Bool.false_eq_true, if_false,
          Option.some.injEq, List.length_cons, List.map_cons]
        rw [Nat.add_comm 1 rest.length]
        rfl

/-- Witness for C1: one touch of the work theme yields an aggregate within
the snippets cap, and its lookup shows one emotion and one snippet. -/
theorem c1_theme_sequence_bounds_witness :
    (⟨"u", "work", 1, ["calm"], ["work"], 3⟩ : ThemeAggregate).snippets.length ≤ 5 ∧
    ((applyTouchOps [] [⟨"u", "work", "calm", 3⟩]).find? (themeKey "u" "work")).map
        (fun agg => (agg.frequency, agg.emotions, agg.snippets)) =
      (if (touchesFor "u" "work" [⟨"u", "work", "calm", 3⟩]).isEmpty then none
       else some ((touchesFor "u" "work" [⟨"u", "work", "calm", 3⟩]).length,
                  (touchesFor "u" "work" [⟨"u", "work", "calm", 3⟩]).map
                    (fun op => op.emotion),
                  lastN 5 ((touchesFor "u" "work" [⟨"u", "work", "calm", 3⟩]).map
                    (fun op => op.message.take 100)))) :=
  ⟨by
      exact (c1_theme_sequence_bounds [⟨"u", "work", "calm", 3⟩] "u" "work").1
        ⟨"u", "work", 1, ["calm"], ["work"], 3⟩ (by decide),
   (c1_theme_sequence_bounds [⟨"u", "work", "calm", 3⟩] "u" "work").2⟩

/-- Helper: the list dot product as a finite sum over indices. -/
theorem dotProduct_eq_sum (v w : List ℚ) :
    dotProduct v w =
      ∑ i ∈ Finset.range (min v.length w.length), v.getD i 0 * w.getD i 0 := by
  induction v generalizing w with
  | nil => simp [dotProduct]
  | cons a v ih =>
      cases w with
      | nil => simp [dotProduct]
      | cons b w =>
          have hdot : dotProduct (a :: v) (b :: w) = a * b + dotProduct v w := rfl
          rw [hdot, ih]
          simp only [List.length_cons]
          rw [Nat.succ_min_succ, Finset.sum_range_succ']
          simp only [List.getD_cons_succ, List.getD_cons_zero]
          ring

/-- Helper: the squared norm as a sum of squares. -/
theorem sqNorm_eq_sum (v : List ℚ) :
    sqNorm v = ∑ i ∈ Finset.range v.length, (v.getD i 0) ^ 2 := by
  rw [sqNorm, dotProduct_eq_sum, min_self]
  exact Finset.sum_congr rfl (fun i _ => (pow_two _).symm)

/-- Helper: a squared norm is nonnegative. -/
theorem sqNorm_nonneg (v : List ℚ) : 0 ≤ sqNorm v := by
  rw [sqNorm_eq_sum]
  exact Finset.sum_nonneg (fun i _ => sq_nonneg _)

/-- Helper: the Cauchy-Schwarz inequality for equal-length float vectors. -/
theorem dotProduct_sq_le (v w : List ℚ) (h : v.length = w.length) :
    (dotProduct v w) ^ 2 ≤ sqNorm v * sqNorm w := by
  rw [dotProduct_eq_sum, sqNorm_eq_sum, sqNorm_eq_sum, h, min_self]
  exact Finset.sum_mul_sq_le_sq_mul_sq _ _ _

/-- Helper: every cosine similarity lies in the interval `[-1, 1]`. -/
theorem abs_cosine_similarity_le_one (vec1 vec2 : List ℚ) :
    |cosine_similarity vec1 vec2| ≤ 1 := by
  unfold cosine_similarity
  split
  · simp
  · split
    · simp
    · rename_i hlen hnorm
      push_neg at hlen
      push_neg at hnorm
      have h1 : 0 < norm2 vec1 := lt_of_le_of_ne (Real.sqrt_nonneg _) (Ne.symm hnorm.1)
      have h2 : 0 < norm2 vec2 := lt_of_le_of_ne (Real.sqrt_nonneg _) (Ne.symm hnorm.2)
      have hsq : ((dotProduct vec1 vec2 : ℚ) : ℝ) ^ 2 ≤
          ((sqNorm vec1 : ℚ) : ℝ) * ((sqNorm vec2 : ℚ) : ℝ) := by
        exact_mod_cast dotProduct_sq_le vec1 vec2 hlen
      have habs : |((dotProduct vec1 vec2 : ℚ) : ℝ)| ≤ norm2 vec1 * norm2 vec2 := by
        rw [norm2, norm2, ← Real.sqrt_mul (by exact_mod_cast sqNorm_nonneg vec1) _,
          ← Real.sqrt_sq_eq_abs]
        exact Real.sqrt_le_sqrt hsq
      rw [abs_div, abs_of_pos (mul_pos h1 h2)]
      exact (div_le_one (mul_pos h1 h2)).mpr habs

/-- Helper: the sum of a list of values in `[-1, 1]` is at most the length
in absolute value. -/
theorem abs_list_sum_le (l : List ℝ) (h : ∀ x ∈ l, |x| ≤ 1) :
    |l.sum| ≤ (l.length : ℝ) := by
  induction l with
  | nil => simp
  | cons a t ih =>
      simp only [List.sum_cons, List.length_cons]
      calc |a + t.sum| ≤ |a| + |t.sum| := abs_add _ _
        _ ≤ 1 + (t.length : ℝ) := add_le_add (h a (List.mem_cons_self _ _))
            (ih (fun x hx => h x (List.mem_cons_of_mem _ hx)))
        _ = ((t.length + 1 : ℕ) : ℝ) := by push_cast; ring

/-- Claim C3, amended: for every recall call with `k ≥ 1`, the returned
bundle's `context_strength` lies in `[-1, 1]` — it is the mean cosine
similarity of the returned top-k turns and 0 when none are found, and a
cosine similarity can be negative, so 0 is not a lower bound; the
conversation document then records that same value. -/
theorem c3_context_strength_bounds (gen : String → Option (List ℚ))
    (conversations : List ConversationDoc) (factsColl : List FactDoc)
    (memoryColl : List ThemeAggregate) (user_id current_query : String) (k : Nat)
    (hk : 1 ≤ k) :
    -1 ≤ (recall_relevant_context gen conversations factsColl memoryColl
        user_id current_query k).context_strength ∧
    (recall_relevant_context gen conversations factsColl memoryColl
        user_id current_query k).context_strength ≤ 1 := by
  rw [← abs_le]
  simp only [recall_relevant_context]
  split
  · simp [emptyBundle]
  · split
    · simp [emptyBundle]
    · dsimp only
      split
      · simp
      · rename_i hsim
        have helems : ∀ x ∈ ((List.mergeSort
            (similarityEntries (generate_embedding (gen current_query))
              (candidatePool conversations user_id))
            (fun a b => decide (b.2 ≤ a.2))).take k).map (fun s => s.2), |x| ≤ 1 := by
          intro x hx
          rcases List.mem_map.mp hx with ⟨p, hp, rfl⟩
          have hp' := List.take_subset _ _ hp
          rw [List.mem_mergeSort] at hp'
          simp only [similarityEntries] at hp'
          rcases List.mem_map.mp hp' with ⟨c, hc, rfl⟩
          exact abs_cosine_similarity_le_one _ _
        have hne : similarityEntries (generate_embedding (gen current_query))
            (candidatePool conversations user_id) ≠ [] := by
          intro h0
          exact hsim (by rw [h0]; rfl)
        have hlen : 0 < ((List.mergeSort
            (similarityEntries (generate_embedding (gen current_query))
              (candidatePool conversations user_id))
            (fun a b => decide (b.2 ≤ a.2))).take k).length := by
          rw [List.length_take, List.length_mergeSort]
          exact lt_min_iff.mpr ⟨hk, List.length_pos.mpr hne⟩
        have hsum := abs_list_sum_le _ helems
        rw [List.length_map] at hsum
        rw [abs_div, Nat.abs_cast]
        exact (div_le_one (by exact_mod_cast hlen)).mpr hsum

/-- Witness for C3 at a concrete recall call with the default `k = 5`. -/
theorem c3_context_strength_bounds_witness :
    -1 ≤ (recall_relevant_context (fun _ => none) [] [] [] "u" "q" 5).context_strength ∧
    (recall_relevant_context (fun _ => none) [] [] [] "u" "q" 5).context_strength ≤ 1 :=
  c3_context_strength_bounds (fun _ => none) [] [] [] "u" "q" 5 (by norm_num)

/-- Helper: opposite unit vectors have cosine similarity exactly -1. -/
theorem cosine_similarity_one_negone : cosine_similarity [1] [-1] = -1 := by
  have hs1 : sqNorm [1] = 1 := by norm_num [sqNorm, dotProduct]
  have hs2 : sqNorm [-1] = 1 := by norm_num [sqNorm, dotProduct]
  have hd : dotProduct [1] [-1] = -1 := by norm_num [dotProduct]
  have hn1 : norm2 [1] = 1 := by
    rw [norm2, hs1]
    norm_num
  have hn2 : norm2 [-1] = 1 := by
    rw [norm2, hs2]
    norm_num
  unfold cosine_similarity
  rw [if_neg (by simp), if_neg (by rw [hn1, hn2]; norm_num), hd, hn1, hn2]
  norm_num

/-- Claim C3, counterexample: with query embedding `[1]` against one
archived turn with embedding `[-1]`, the recalled context strength is `-1`,
which is negative — it is not in `[0, 1]`. -/
theorem c3_counterexample :
    (recall_relevant_context (fun _ => some [1]) [negConvDoc] [] [] "u" "q" 5).context_strength
      = -1 ∧ (-1 : ℝ) < 0 := by
  refine ⟨?_, by norm_num⟩
  have hpool : candidatePool [negConvDoc] "u" = [negConvDoc] := by
    simp [candidatePool, negConvDoc, List.mergeSort]
  have hgen : generate_embedding ((fun _ => some ([1] : List ℚ)) "q") = [1] := rfl
  have hsims : similarityEntries [1] [negConvDoc] =
      [(negConvDoc, cosine_similarity [1] [-1])] := by
    simp [similarityEntries, negConvDoc]
  simp only [recall_relevant_context, hgen, hpool, hsims]
  rw [if_neg (by simp), if_neg (by simp)]
  dsimp only
  rw [if_neg (by simp)]
  rw [show List.mergeSort [(negConvDoc, cosine_similarity [1] [-1])]
      (fun a b : ConversationDoc × ℝ => decide (b.2 ≤ a.2)) =
      [(negConvDoc, cosine_similarity [1] [-1])] by simp [List.mergeSort]]
  simp [cosine_similarity_one_negone]
